import Mathlib

/-!
A shallow embedding of the classifier core of `kafka_lens.py` (the
`KafkaLens` class and its CLI command surface), together with proofs of
the behavioural properties of its health, lag, staleness and unused-topic
classifiers, its deletion guard, and its client life-cycle.

Cluster communication is delegated to an external client library; here the
client's responses are the inputs of the embedded functions, and per-item
failures of client calls are modelled as `Except.error` values.  Timestamps
are milliseconds since the epoch, carried as `Int` (the source manipulates
them as Python numbers); day arithmetic uses exact rationals.
-/

namespace KafkaLens

/-- A topic-partition pair, as used for offset maps (`TopicPartition` keys
of the client's dictionaries). -/
structure TopicPartition where
  topic : String
  part : Nat
deriving DecidableEq, Repr

/-- Committed-offset metadata for one partition of a consumer group:
`offset` and `commit_timestamp` (ms), as returned by
`list_consumer_group_offsets`. -/
structure OffsetMeta where
  offset : Int
  commit_timestamp : Int
deriving DecidableEq, Repr

/-- Association-list lookup, modelling `dict` lookup (`tp in latest_offsets`
/ `latest_offsets[tp]`). -/
def lookupTP {α : Type} : List (TopicPartition × α) → TopicPartition → Option α
  | [], _ => none
  | (k, v) :: rest, tp => if k = tp then some v else lookupTP rest tp

/-- The client data check_lag fetches for one consumer group: its committed
offsets (`list_consumer_group_offsets`) and the end offsets for the same
partition list (`get_topic_end_offsets`), kafka_lens.py lines 217-224. -/
structure GroupFetch where
  committed : List (TopicPartition × OffsetMeta)
  latest : List (TopicPartition × Int)
deriving DecidableEq, Repr

/-- Total lag of one group, kafka_lens.py lines 227-233: iterate over the
committed partitions, skip those absent from the end-offset response, and
accumulate `max(0, latest_offset - committed_offset)`. -/
def groupTotalLag (committed : List (TopicPartition × OffsetMeta))
    (latest : List (TopicPartition × Int)) : Int :=
  committed.foldl (fun acc p =>
    match lookupTP latest p.1 with
    | some endOff => acc + max 0 (endOff - p.2.offset)
    | none => acc) 0

/-- Spec-side formulation of a group's total lag: the sum over the group's
committed partitions of `max 0 (end-offset - committed-offset)` (a partition
with no end offset contributes `max 0 0 = 0`). -/
def specGroupLag (committed : List (TopicPartition × OffsetMeta))
    (latest : List (TopicPartition × Int)) : Int :=
  (committed.map (fun p =>
    max 0 ((lookupTP latest p.1).getD p.2.offset - p.2.offset))).sum

/-- Outcome of one scan command: the warnings printed for items that threw,
and the accumulated per-item results, in processing order. -/
structure Scan (ρ : Type) where
  warnings : List String
  results : List ρ
deriving DecidableEq, Repr

/-- The common scan loop of `check_lag`, `find_stale_consumers` and
`find_unused_topics` (kafka_lens.py lines 214-239, 276-294, 323-353): each
item is processed inside `try/except`; an exception is rendered through
`warnOf` and the loop continues; a successful item appends `resOf` to the
accumulated results. -/
def runScan {ι δ ρ : Type} (warnOf : ι → String → String) (resOf : ι → δ → List ρ)
    (items : List (ι × Except String δ)) : Scan ρ :=
  items.foldl (fun acc it =>
    match it.2 with
    | Except.error e => { acc with warnings := acc.warnings ++ [warnOf it.1 e] }
    | Except.ok d => { acc with results := acc.results ++ resOf it.1 d }) ⟨[], []⟩

/-- Warning text of kafka_lens.py line 238. -/
def lagWarning (g e : String) : String :=
  "Warning: Could not check lag for group " ++ g ++ ": " ++ e

/-- Per-group body of the check_lag loop, lines 217-235: a group with an
empty committed-offset map is skipped (`if not committed_offsets: continue`);
otherwise the group is reported with its total lag. -/
def lagResult (g : String) (d : GroupFetch) : List (String × Int) :=
  if d.committed = [] then [] else [(g, groupTotalLag d.committed d.latest)]

/-- The check_lag scan, lines 209-239: fold the per-group body over the
listed consumer groups, warning and continuing on per-group errors. -/
def checkLag (groups : List (String × Except String GroupFetch)) : Scan (String × Int) :=
  runScan lagWarning lagResult groups

/-- High-lag selection, lines 248-254: groups whose lag is strictly greater
than the configured threshold (`if lag > lag_threshold`). -/
def highLagGroups (scan : Scan (String × Int)) (lagThreshold : Int) : List (String × Int) :=
  scan.results.filter (fun p => lagThreshold < p.2)

/-- Replica assignment of one partition as returned by `describe_topics`:
the replica broker list and the in-sync-replica broker list. -/
structure PartitionInfo where
  replicas : List Nat
  isr : List Nat
deriving DecidableEq, Repr

/-- Metadata of one topic: its partitions (`topic_info.partitions`). -/
structure TopicInfo where
  partitions : List (Nat × PartitionInfo)
deriving DecidableEq, Repr

/-- Cluster metadata from `describe_cluster`: broker list, connected node
list, controller id (kafka_lens.py lines 161-166). -/
structure ClusterMeta where
  brokers : List Nat
  nodes : List Nat
  controller : Nat
deriving DecidableEq, Repr

/-- Test for internal topics, modelling `topic.startswith('__')` of
kafka_lens.py lines 170 and 319: the name's first two characters are both
underscores. -/
def isInternalTopic (t : String) : Bool := t.data.take 2 == ['_', '_']

/-- Under-replicated partition count over described topics, kafka_lens.py
lines 172-181: the nested loop increments for every partition whose
in-sync-replica list is shorter than its replica list. -/
def urpCountTopics (tm : List (String × TopicInfo)) : Nat :=
  tm.foldl (fun acc t =>
    t.2.partitions.foldl (fun a p =>
      if p.2.isr.length < p.2.replicas.length then a + 1 else a) acc) 0

/-- Spec-side under-replicated count: the number of partitions of
non-internal topics whose ISR set is smaller than their replica set. -/
def specUrp (tm : List (String × TopicInfo)) : Nat :=
  ((tm.filter (fun t => !(isInternalTopic t.1))).flatMap
      (fun t => t.2.partitions)).countP
    (fun p => p.2.isr.length < p.2.replicas.length)

/-- Result of the health check, kafka_lens.py lines 184-197. -/
structure HealthReport where
  total_brokers : Nat
  connected_brokers : Nat
  controller : Nat
  urp_count : Nat
  healthy : Bool
deriving DecidableEq, Repr

/-- The health_check command body, kafka_lens.py lines 159-197: count
brokers, drop topics whose name starts with the double underscore
(`if not topic.startswith('__')`), count under-replicated partitions over
the remaining described topics, and report healthy iff all brokers are
connected and the under-replicated count is zero.  `topicMeta` carries the
described metadata of every listed topic; the filter over it models
describing only `non_internal_topics`. -/
def health_check (meta : ClusterMeta) (topicMeta : List (String × TopicInfo)) :
    HealthReport :=
  let total_brokers := meta.brokers.length
  let connected_brokers := meta.nodes.length
  let nonInternal := topicMeta.filter (fun t => !(isInternalTopic t.1))
  let urp := urpCountTopics nonInternal
  ⟨total_brokers, connected_brokers, meta.controller, urp,
    connected_brokers == total_brokers && urp == 0⟩

/-- Milliseconds per day, the factor `1000 * 60 * 60 * 24` of kafka_lens.py
lines 270, 289, 314 and 348 (`timedelta(days=n)` is exactly n of these). -/
def msPerDay : Int := 86400000

/-- Age in days of a millisecond timestamp, kafka_lens.py lines 289 and
348: `(now - ts) / (1000*60*60*24)`, as an exact rational. -/
def daysOld (nowMs ts : Int) : ℚ := ((nowMs - ts : Int) : ℚ) / ((msPerDay : Int) : ℚ)

/-- Rendering of a number to one decimal place, modelling the Python
format `f"{x:.1f}"`: scale by ten and round to the nearest integer (the
source formats IEEE doubles, where the round-half-to-even tie cases are
immaterial; ties here round up). -/
def fmt1 (q : ℚ) : String :=
  let n : Int := round (q * 10)
  let a : Nat := n.natAbs
  let core := toString (a / 10) ++ "." ++ toString (a % 10)
  if n < 0 then "-" ++ core else core

/-- Executable form of the one-decimal day rendering for a millisecond
age: the number of tenths of a day is the floor of
`delta * 10 / 86400000 + 1/2`, computed over the integers. -/
def renderDays (deltaMs : Int) : String :=
  let n : Int := (20 * deltaMs + msPerDay) / (2 * msPerDay)
  let a : Nat := n.natAbs
  let core := toString (a / 10) ++ "." ++ toString (a % 10)
  if n < 0 then "-" ++ core else core

/-- Warning text of kafka_lens.py line 293. -/
def staleWarning (g e : String) : String :=
  "Warning: Could not check group " ++ g ++ ": " ++ e

/-- Per-group body of the find_stale_consumers loop, kafka_lens.py lines
278-290: a group with no commits is immediately stale; otherwise the
maximum commit timestamp over its partitions is compared against the
threshold timestamp, and a stale group's reason renders its age in days to
one decimal place. -/
def staleResult (nowMs thresholdTs : Int) (g : String)
    (offs : List (TopicPartition × OffsetMeta)) : List (String × String) :=
  match offs with
  | [] => [(g, "No commits")]
  | o :: rest =>
    let latest := rest.foldl (fun a p => max a p.2.commit_timestamp) o.2.commit_timestamp
    if latest < thresholdTs then [(g, fmt1 (daysOld nowMs latest) ++ " days old")]
    else []

/-- The find_stale_consumers scan, kafka_lens.py lines 269-294: the
threshold timestamp is `now - stale_consumer_days` days, and the per-group
body runs under the warn-and-continue loop. -/
def findStale (groups : List (String × Except String (List (TopicPartition × OffsetMeta))))
    (nowMs staleDays : Int) : Scan (String × String) :=
  runScan staleWarning (staleResult nowMs (nowMs - staleDays * msPerDay)) groups

/-- One partition as seen by the unused-topic inspection: its id, its end
offset, and the timestamp of the record at end offset − 1 that a poll
delivers (kafka_lens.py lines 335-345). -/
structure PartScan where
  pid : Nat
  endOffset : Int
  lastTs : Int
deriving DecidableEq, Repr

/-- Latest message timestamp of a topic, kafka_lens.py lines 334-345:
start at 0 and, for every partition holding messages, take the maximum
with the consumed record's timestamp. -/
def latestTimestampOf (parts : List PartScan) : Int :=
  parts.foldl (fun acc p => if 0 < p.endOffset then max acc p.lastTs else acc) 0

/-- Warning text of kafka_lens.py line 352. -/
def unusedWarning (t e : String) : String :=
  "Warning: Could not check topic " ++ t ++ ": " ++ e

/-- Per-topic body of the find_unused_topics loop, kafka_lens.py lines
326-349: a topic with no partitions is skipped; otherwise it is classified
unused iff its latest message timestamp is positive and older than the
threshold timestamp. -/
def unusedResult (nowMs thresholdTs : Int) (t : String)
    (parts : List PartScan) : List (String × String) :=
  if parts = [] then []
  else if 0 < latestTimestampOf parts ∧ latestTimestampOf parts < thresholdTs then
    [(t, fmt1 (daysOld nowMs (latestTimestampOf parts)) ++ " days old")]
  else []

/-- The find_unused_topics scan over non-internal topics, kafka_lens.py
lines 313-353: the threshold timestamp is `now - unused_topic_days` days,
and the per-topic body runs under the warn-and-continue loop. -/
def findUnused (topics : List (String × Except String (List PartScan)))
    (nowMs unusedDays : Int) : Scan (String × String) :=
  runScan unusedWarning (unusedResult nowMs (nowMs - unusedDays * msPerDay)) topics

/-- Lower-casing of a string character by character, modelling Python
`str.lower()` as used in `confirm.lower()` (kafka_lens.py lines 376
and 396). -/
def lowerStr (s : String) : String := ⟨s.data.map Char.toLower⟩

/-- The destructive administrative client calls. -/
inductive ClientCall
  | deleteGroups (gs : List String)
  | deleteTopics (ts : List String)
deriving DecidableEq, Repr

/-- The value produced by `click.prompt(..., default='N')`: the typed
input, or the default N when the input is empty. -/
def promptAnswer (input : String) : String := if input = "" then "N" else input

/-- The delete_consumer_group command, kafka_lens.py lines 366-384,
returning the destructive client calls it issues: the prompt answer is
lower-cased and compared with y; anything else cancels, otherwise
`delete_consumer_groups([group_name])` is called. -/
def delete_consumer_group (group_name : String) (input : String) : List ClientCall :=
  if lowerStr (promptAnswer input) ≠ "y" then []
  else [ClientCall.deleteGroups [group_name]]

/-- The delete_topic command, kafka_lens.py lines 386-404, symmetric to
delete_consumer_group with `delete_topics([topic_name])`. -/
def delete_topic (topic_name : String) (input : String) : List ClientCall :=
  if lowerStr (promptAnswer input) ≠ "y" then []
  else [ClientCall.deleteTopics [topic_name]]

/-- Connection life-cycle events of a KafkaLens instance. -/
inductive LensEv
  | createAdmin
  | createConsumer
  | closeAdmin
  | closeConsumer
deriving DecidableEq, Repr

/-- The connection state of a KafkaLens instance: the lazily created
clients (identified by a fresh number), a fresh-id counter, and the event
trace. -/
structure LensState where
  admin_client : Option Nat
  consumer : Option Nat
  nextId : Nat
  trace : List LensEv
deriving DecidableEq, Repr

/-- `KafkaLens.__init__`, kafka_lens.py lines 30-34: both clients start
unset. -/
def initLens : LensState := ⟨none, none, 0, []⟩

/-- `_get_admin_client`, kafka_lens.py lines 86-123: construct the admin
client on first use, return the stored instance afterwards. -/
def get_admin_client (s : LensState) : Nat × LensState :=
  match s.admin_client with
  | some c => (c, s)
  | none =>
    (s.nextId, { s with admin_client := some s.nextId, nextId := s.nextId + 1,
                        trace := s.trace ++ [LensEv.createAdmin] })

/-- `_get_consumer`, kafka_lens.py lines 125-151: construct the consumer
on first use, return the stored instance afterwards. -/
def get_consumer (s : LensState) : Nat × LensState :=
  match s.consumer with
  | some c => (c, s)
  | none =>
    (s.nextId, { s with consumer := some s.nextId, nextId := s.nextId + 1,
                        trace := s.trace ++ [LensEv.createConsumer] })

/-- `KafkaLens.close`, kafka_lens.py lines 406-411: close whichever
clients were created. -/
def close (s : LensState) : LensState :=
  let s1 := match s.admin_client with
    | some _ => { s with trace := s.trace ++ [LensEv.closeAdmin] }
    | none => s
  match s1.consumer with
  | some _ => { s1 with trace := s1.trace ++ [LensEv.closeConsumer] }
  | none => s1

/-- The cli health_check command, kafka_lens.py lines 423-428 with the
body at lines 153-200: the command acquires the admin client, performs the
health check, and returns; it performs no release. -/
def cliHealthCheck (s : LensState) : LensState := (get_admin_client s).2

/-- The cli find unused-topics command, kafka_lens.py lines 453-458 with
the body at lines 307-364: the command acquires the admin client and the
consumer and returns; it performs no release. -/
def cliFindUnusedTopics (s : LensState) : LensState :=
  (get_consumer (get_admin_client s).2).2

/-- Events of the last-message inspection consumer. -/
inductive ConsumerEv
  | seekToEnd (p : Nat)
  | seekAt (p : Nat) (off : Int)
  | consumeRecords (p : Nat) (n : Nat)
  | commitOffsets
deriving DecidableEq, Repr

/-- The relevant consumer configuration built by `_get_consumer`,
kafka_lens.py lines 130-135: offsets reset to latest and automatic offset
committing disabled. -/
structure ConsumerConfig where
  auto_offset_reset : String
  enable_auto_commit : Bool
deriving DecidableEq, Repr

/-- The configuration values of kafka_lens.py lines 133-134. -/
def lensConsumerConfig : ConsumerConfig := ⟨"latest", false⟩

/-- Consumer events issued for one partition by the find_unused_topics
inspection, kafka_lens.py lines 335-345: a partition holding messages gets
`seek_to_end`, a seek to end offset − 1, and one poll that consumes the
single record at that cursor (the only record at or past it); an empty
partition is not touched.  No commit call appears anywhere in the
source. -/
def inspectPartitionEvents (p : PartScan) : List ConsumerEv :=
  if 0 < p.endOffset then
    [ConsumerEv.seekToEnd p.pid, ConsumerEv.seekAt p.pid (p.endOffset - 1),
     ConsumerEv.consumeRecords p.pid 1]
  else []

/-- The consumer events of the whole per-topic inspection loop. -/
def inspectTopicEvents (parts : List PartScan) : List ConsumerEv :=
  parts.flatMap inspectPartitionEvents

/-- Total number of records consumed in an event list. -/
def consumedCount (evs : List ConsumerEv) : Nat :=
  (evs.filterMap (fun e => match e with
    | ConsumerEv.consumeRecords _ n => some n
    | _ => none)).sum

/-- Closed form of the scan loop: the warnings are those of the failed
items, the results the concatenation of the successful items' results. -/
theorem runScan_eq {ι δ ρ : Type} (warnOf : ι → String → String)
    (resOf : ι → δ → List ρ) (items : List (ι × Except String δ)) :
    runScan warnOf resOf items =
      ⟨items.flatMap (fun it => match it.2 with
          | Except.error e => [warnOf it.1 e]
          | Except.ok _ => []),
       items.flatMap (fun it => match it.2 with
          | Except.error _ => []
          | Except.ok d => resOf it.1 d)⟩ := by
  have aux : ∀ (l : List (ι × Except String δ)) (acc : Scan ρ),
      l.foldl (fun acc it =>
        match it.2 with
        | Except.error e => { acc with warnings := acc.warnings ++ [warnOf it.1 e] }
        | Except.ok d => { acc with results := acc.results ++ resOf it.1 d }) acc =
      ⟨acc.warnings ++ l.flatMap (fun it => match it.2 with
          | Except.error e => [warnOf it.1 e]
          | Except.ok _ => []),
       acc.results ++ l.flatMap (fun it => match it.2 with
          | Except.error _ => []
          | Except.ok d => resOf it.1 d)⟩ := by
    intro l
    induction l with
    | nil => intro acc; simp
    | cons x xs ih =>
      intro acc
      match hx : x.2 with
      | Except.error e => simp [List.foldl_cons, hx, ih]
      | Except.ok d => simp [List.foldl_cons, hx, ih]
  simpa [runScan] using aux items ⟨[], []⟩

/-- The loop accumulation of `groupTotalLag` computes the spec-side sum. -/
theorem groupTotalLag_eq_spec (c : List (TopicPartition × OffsetMeta))
    (l : List (TopicPartition × Int)) : groupTotalLag c l = specGroupLag c l := by
  have aux : ∀ (c : List (TopicPartition × OffsetMeta)) (a : Int),
      c.foldl (fun acc p =>
        match lookupTP l p.1 with
        | some endOff => acc + max 0 (endOff - p.2.offset)
        | none => acc) a = a + specGroupLag c l := by
    intro c
    induction c with
    | nil => intro a; simp [specGroupLag]
    | cons p ps ih =>
      intro a
      match hp : lookupTP l p.1 with
      | some endOff =>
        simp only [List.foldl_cons, hp, ih, specGroupLag, List.map_cons, List.sum_cons]
        simp [hp]
        ring
      | none =>
        simp only [List.foldl_cons, hp, ih, specGroupLag, List.map_cons, List.sum_cons]
        simp [hp]
  simpa [groupTotalLag] using aux c 0

/-- Each per-partition contribution is clipped at zero, so the sum is
nonnegative. -/
theorem specGroupLag_nonneg (c : List (TopicPartition × OffsetMeta))
    (l : List (TopicPartition × Int)) : 0 ≤ specGroupLag c l := by
  refine List.sum_nonneg ?_
  intro x hx
  simp only [specGroupLag, List.mem_map] at hx
  obtain ⟨p, -, rfl⟩ := hx
  exact le_max_left 0 _

/-- C1: a consumer group processed by check_lag is reported with total lag
equal to the sum over its committed partitions of
max(0, end-offset - committed-offset); that total is never negative; and
the group is flagged high-lag iff its total lag is strictly greater than
the configured lag threshold. -/
theorem check_lag_group_report (xs ys : List (String × Except String GroupFetch))
    (g : String) (c : List (TopicPartition × OffsetMeta))
    (l : List (TopicPartition × Int)) (th : Int)
    (hne : c ≠ []) (hall : ∀ p ∈ c, lookupTP l p.1 ≠ none) :
    (checkLag (xs ++ (g, Except.ok ⟨c, l⟩) :: ys)).results =
        (checkLag xs).results ++ (g, specGroupLag c l) :: (checkLag ys).results ∧
    0 ≤ specGroupLag c l ∧
    ((g, specGroupLag c l) ∈
        highLagGroups (checkLag (xs ++ (g, Except.ok ⟨c, l⟩) :: ys)) th ↔
      th < specGroupLag c l) := by
  have hres : (checkLag (xs ++ (g, Except.ok ⟨c, l⟩) :: ys)).results =
      (checkLag xs).results ++ (g, specGroupLag c l) :: (checkLag ys).results := by
    simp [checkLag, runScan_eq, lagResult, hne, groupTotalLag_eq_spec]
  refine ⟨hres, specGroupLag_nonneg c l, ?_⟩
  constructor
  · intro hmem
    rcases List.mem_filter.mp hmem with ⟨-, hdec⟩
    exact of_decide_eq_true hdec
  · intro hlt
    refine List.mem_filter.mpr ⟨?_, decide_eq_true hlt⟩
    rw [hres]
    exact List.mem_append_right _ (List.mem_cons_self _ _)

/-- C1 witness: the spec example, group g1 with committed offset 100 and
end-offset 350 has lag 250; under threshold 1000 it is reported normal and
under threshold 100 it is flagged high-lag; a raw negative per-partition
difference (committed 100, end 50) is clipped to 0. -/
theorem check_lag_group_report_witness :
    (checkLag [("g1", Except.ok ⟨[(⟨"topicA", 0⟩, ⟨100, 0⟩)], [(⟨"topicA", 0⟩, 350)]⟩)]).results =
        [("g1", specGroupLag [(⟨"topicA", 0⟩, ⟨100, 0⟩)] [(⟨"topicA", 0⟩, 350)])] ∧
    specGroupLag [(⟨"topicA", 0⟩, ⟨100, 0⟩)] [(⟨"topicA", 0⟩, 350)] = 250 ∧
    highLagGroups
        (checkLag [("g1", Except.ok ⟨[(⟨"topicA", 0⟩, ⟨100, 0⟩)], [(⟨"topicA", 0⟩, 350)]⟩)])
        1000 = [] ∧
    highLagGroups
        (checkLag [("g1", Except.ok ⟨[(⟨"topicA", 0⟩, ⟨100, 0⟩)], [(⟨"topicA", 0⟩, 350)]⟩)])
        100 = [("g1", 250)] ∧
    specGroupLag [(⟨"topicA", 0⟩, ⟨100, 0⟩)] [(⟨"topicA", 0⟩, 50)] = 0 := by
  have h := check_lag_group_report [] [] "g1"
    [(⟨"topicA", 0⟩, ⟨100, 0⟩)] [(⟨"topicA", 0⟩, 350)] 1000
    (by decide) (by decide)
  exact ⟨by simpa using h.1, by decide, by decide, by decide, by decide⟩

/-- C9: a group whose committed-offset map is empty is silently skipped by
check_lag: the whole scan outcome (warnings and lag report alike) is the
one obtained with the group removed from the group list. -/
theorem check_lag_skips_empty_groups (xs ys : List (String × Except String GroupFetch))
    (g : String) (l : List (TopicPartition × Int)) :
    checkLag (xs ++ (g, Except.ok ⟨[], l⟩) :: ys) = checkLag (xs ++ ys) := by
  simp [checkLag, runScan_eq, lagResult]

/-- C10: a committed partition absent from the end-offset response
contributes zero to the group's total lag, and the group is still reported,
without any warning, with the partial sum over the partitions that were
returned. -/
theorem check_lag_skips_missing_partitions (g : String)
    (c₁ c₂ : List (TopicPartition × OffsetMeta)) (tp : TopicPartition) (m : OffsetMeta)
    (l : List (TopicPartition × Int)) (h : lookupTP l tp = none) :
    checkLag [(g, Except.ok ⟨c₁ ++ (tp, m) :: c₂, l⟩)] =
      ⟨[], [(g, groupTotalLag (c₁ ++ c₂) l)]⟩ ∧
    groupTotalLag (c₁ ++ (tp, m) :: c₂) l = groupTotalLag (c₁ ++ c₂) l := by
  have hmid : groupTotalLag (c₁ ++ (tp, m) :: c₂) l = groupTotalLag (c₁ ++ c₂) l := by
    simp [groupTotalLag_eq_spec, specGroupLag, h]
  refine ⟨?_, hmid⟩
  simp [checkLag, runScan_eq, lagResult, hmid]

/-- C10 witness: a singleton committed-offset map whose partition has no
end offset yields lag 0 and a normal report. -/
theorem check_lag_skips_missing_partitions_witness :
    checkLag [("g", Except.ok ⟨[(⟨"t", 0⟩, ⟨100, 0⟩)], []⟩)] = ⟨[], [("g", 0)]⟩ ∧
    groupTotalLag [(⟨"t", 0⟩, ⟨100, 0⟩)] [] = 0 := by
  have h := check_lag_skips_missing_partitions "g" [] [] ⟨"t", 0⟩ ⟨100, 0⟩ [] (by decide)
  exact ⟨by simpa using h.1, by decide⟩

/-- The inner partition loop of the health check counts the partitions
satisfying the under-replication test. -/
theorem urp_inner_foldl (l : List (Nat × PartitionInfo)) (a : Nat) :
    l.foldl (fun a p =>
        if p.2.isr.length < p.2.replicas.length then a + 1 else a) a =
      a + l.countP (fun p => p.2.isr.length < p.2.replicas.length) := by
  induction l generalizing a with
  | nil => simp
  | cons p ps ih =>
    by_cases hp : p.2.isr.length < p.2.replicas.length <;>
      simp [List.countP_cons, hp, ih] <;> omega

/-- The nested loops of the health check count the under-replicated
partitions of all scanned topics. -/
theorem urpCountTopics_eq (tm : List (String × TopicInfo)) :
    urpCountTopics tm =
      (tm.flatMap (fun t => t.2.partitions)).countP
        (fun p => p.2.isr.length < p.2.replicas.length) := by
  have aux : ∀ (tm : List (String × TopicInfo)) (a : Nat),
      tm.foldl (fun acc t =>
        t.2.partitions.foldl (fun a p =>
          if p.2.isr.length < p.2.replicas.length then a + 1 else a) acc) a =
      a + (tm.flatMap (fun t => t.2.partitions)).countP
        (fun p => p.2.isr.length < p.2.replicas.length) := by
    intro tm
    induction tm with
    | nil => intro a; simp
    | cons t ts ih =>
      intro a
      rw [List.foldl_cons, ih, urp_inner_foldl]
      simp [List.countP_append]
      omega
  simpa [urpCountTopics] using aux tm 0

/-- C2: the cluster is reported healthy iff every broker is connected and
the under-replicated count is zero; that count is exactly the number of
partitions whose in-sync-replica set is smaller than their replica set over
non-internal topics; and a topic whose name starts with the double
underscore is excluded from the scan entirely. -/
theorem health_check_correct (meta : ClusterMeta) (tm : List (String × TopicInfo)) :
    ((health_check meta tm).healthy = true ↔
        meta.nodes.length = meta.brokers.length ∧
          (health_check meta tm).urp_count = 0) ∧
    (health_check meta tm).urp_count = specUrp tm ∧
    (∀ (name : String) (info : TopicInfo) (rest : List (String × TopicInfo)),
      isInternalTopic name = true →
        health_check meta ((name, info) :: rest) = health_check meta rest) := by
  refine ⟨?_, ?_, ?_⟩
  · simp [health_check]
  · simp [health_check, specUrp, urpCountTopics_eq]
  · intro name info rest hname
    simp [health_check, List.filter_cons, hname]

/-- C2 witness: a two-broker cluster where the only under-replicated
partition lives in the internal topic __consumer_offsets is reported
healthy with under-replicated count 0, and the internal topic's presence
does not change the report; with one broker offline the verdict flips. -/
theorem health_check_correct_witness :
    health_check ⟨[1, 2], [1, 2], 1⟩
        [("__consumer_offsets", ⟨[(0, ⟨[1, 2], [1]⟩)]⟩),
         ("orders", ⟨[(0, ⟨[1, 2], [1, 2]⟩)]⟩)] =
      health_check ⟨[1, 2], [1, 2], 1⟩ [("orders", ⟨[(0, ⟨[1, 2], [1, 2]⟩)]⟩)] ∧
    (health_check ⟨[1, 2], [1, 2], 1⟩
        [("__consumer_offsets", ⟨[(0, ⟨[1, 2], [1]⟩)]⟩),
         ("orders", ⟨[(0, ⟨[1, 2], [1, 2]⟩)]⟩)]).healthy = true ∧
    (health_check ⟨[1, 2], [1, 2], 1⟩
        [("__consumer_offsets", ⟨[(0, ⟨[1, 2], [1]⟩)]⟩),
         ("orders", ⟨[(0, ⟨[1, 2], [1, 2]⟩)]⟩)]).urp_count = 0 ∧
    (health_check ⟨[1, 2], [2], 1⟩ []).healthy = false := by
  refine ⟨?_, by decide, by decide, by decide⟩
  exact (health_check_correct ⟨[1, 2], [1, 2], 1⟩
      [("orders", ⟨[(0, ⟨[1, 2], [1, 2]⟩)]⟩)]).2.2
    "__consumer_offsets" ⟨[(0, ⟨[1, 2], [1]⟩)]⟩
    [("orders", ⟨[(0, ⟨[1, 2], [1, 2]⟩)]⟩)] (by decide)

/-- The rational rendering agrees with the integer computation of
`renderDays`. -/
theorem fmt1_daysOld (nowMs ts : Int) :
    fmt1 (daysOld nowMs ts) = renderDays (nowMs - ts) := by
  have key : round (daysOld nowMs ts * 10) =
      (20 * (nowMs - ts) + msPerDay) / (2 * msPerDay) := by
    rw [round_eq]
    have h2 : daysOld nowMs ts * 10 + 1 / 2 =
        ((20 * (nowMs - ts) + 86400000 : ℤ) : ℚ) / ((172800000 : ℕ) : ℚ) := by
      unfold daysOld msPerDay
      push_cast
      field_simp
      ring
    rw [h2, Rat.floor_intCast_div_natCast]
    norm_num [msPerDay]
  simp only [fmt1, renderDays, key]

/-- A left fold of `max` yields either its seed or a list element. -/
theorem foldl_max_mem (l : List Int) (a : Int) :
    l.foldl max a = a ∨ l.foldl max a ∈ l := by
  induction l generalizing a with
  | nil => exact Or.inl rfl
  | cons b bs ih =>
    rw [List.foldl_cons]
    rcases ih (max a b) with h | h
    · rcases max_choice a b with hm | hm
      · exact Or.inl (h.trans hm)
      · exact Or.inr (by rw [h, hm]; exact List.mem_cons_self _ _)
    · exact Or.inr (List.mem_cons_of_mem _ h)

/-- The seed is below a left fold of `max`. -/
theorem self_le_foldl_max (l : List Int) (a : Int) : a ≤ l.foldl max a := by
  induction l generalizing a with
  | nil => exact le_refl a
  | cons b bs ih =>
    rw [List.foldl_cons]
    exact (le_max_left a b).trans (ih (max a b))

/-- Every list element is below a left fold of `max`. -/
theorem mem_le_foldl_max (l : List Int) : ∀ (a x : Int), x ∈ l → x ≤ l.foldl max a := by
  induction l with
  | nil => intro a x hx; cases hx
  | cons b bs ih =>
    intro a x hx
    rw [List.foldl_cons]
    rcases List.mem_cons.mp hx with rfl | h
    · exact (le_max_right a x).trans (self_le_foldl_max bs (max a x))
    · exact ih (max a b) x h

/-- The accumulation of find_stale_consumers computes the maximum commit
timestamp of a nonempty offset map: it is one of the timestamps and bounds
them all. -/
theorem commit_foldl_spec (o : TopicPartition × OffsetMeta)
    (rest : List (TopicPartition × OffsetMeta)) :
    (rest.foldl (fun a p => max a p.2.commit_timestamp) o.2.commit_timestamp ∈
        (o :: rest).map (fun p => p.2.commit_timestamp)) ∧
    ∀ t ∈ (o :: rest).map (fun p => p.2.commit_timestamp),
      t ≤ rest.foldl (fun a p => max a p.2.commit_timestamp) o.2.commit_timestamp := by
  have hmap : rest.foldl (fun a p => max a p.2.commit_timestamp) o.2.commit_timestamp =
      (rest.map (fun p => p.2.commit_timestamp)).foldl max o.2.commit_timestamp := by
    simp [List.foldl_map]
  constructor
  · rw [hmap, List.map_cons]
    rcases foldl_max_mem (rest.map (fun p => p.2.commit_timestamp))
        o.2.commit_timestamp with h | h
    · rw [h]; exact List.mem_cons_self _ _
    · exact List.mem_cons_of_mem _ h
  · intro t ht
    rw [List.map_cons] at ht
    rw [hmap]
    rcases List.mem_cons.mp ht with rfl | h
    · exact self_le_foldl_max _ _
    · exact mem_le_foldl_max _ _ _ h

/-- C3: a group with an empty offset map is classified stale with reason
"No commits" whatever the threshold; a group with commits is classified
stale iff the maximum commit timestamp over all its partitions is older
than the threshold timestamp, with reason the age of that maximum in days,
rendered to one decimal place. -/
theorem find_stale_correct (g : String) (offs : List (TopicPartition × OffsetMeta))
    (nowMs staleDays : Int) (hne : offs ≠ []) :
    (findStale [(g, Except.ok [])] nowMs staleDays).results = [(g, "No commits")] ∧
    ∃ latest : Int,
      latest ∈ offs.map (fun p => p.2.commit_timestamp) ∧
      (∀ t ∈ offs.map (fun p => p.2.commit_timestamp), t ≤ latest) ∧
      (findStale [(g, Except.ok offs)] nowMs staleDays).results =
        (if latest < nowMs - staleDays * msPerDay then
          [(g, fmt1 (daysOld nowMs latest) ++ " days old")]
         else []) := by
  refine ⟨by simp [findStale, runScan_eq, staleResult], ?_⟩
  obtain ⟨o, rest, rfl⟩ := List.exists_cons_of_ne_nil hne
  refine ⟨rest.foldl (fun a p => max a p.2.commit_timestamp) o.2.commit_timestamp,
    (commit_foldl_spec o rest).1, (commit_foldl_spec o rest).2, ?_⟩
  simp [findStale, runScan_eq, staleResult]

/-- C3 witness: a group last committed 30 days ago is stale under a
10-day threshold with reason "30.0 days old"; an uncommitted group is
"No commits" even under a negative threshold; and a group whose most
recent partition commit is fresh is not stale even though its oldest
partition commit is ancient. -/
theorem find_stale_correct_witness :
    (findStale [("g1", Except.ok [(⟨"t", 0⟩, ⟨0, 0⟩)])] 2592000000 10).results =
        [("g1", "30.0 days old")] ∧
    (findStale [("g2", Except.ok [])] 0 (-5)).results = [("g2", "No commits")] ∧
    (findStale [("g3", Except.ok [(⟨"t", 0⟩, ⟨0, 0⟩), (⟨"t", 1⟩, ⟨0, 2000000000⟩)])]
        2592000000 10).results = [] := by
  refine ⟨?_, ?_, by decide⟩
  · obtain ⟨L, hmem, -, hres⟩ :=
      (find_stale_correct "g1" [(⟨"t", 0⟩, ⟨0, 0⟩)] 2592000000 10 (by decide)).2
    simp only [List.map_cons, List.map_nil, List.mem_singleton] at hmem
    subst hmem
    rw [hres, if_pos (by decide), fmt1_daysOld]
    decide
  · exact (find_stale_correct "g2" [(⟨"t", 0⟩, ⟨0, 0⟩)] 0 (-5) (by decide)).1

/-- A topic none of whose partitions holds messages has latest message
timestamp 0. -/
theorem latestTimestampOf_zero (parts : List PartScan)
    (h : ∀ p ∈ parts, p.endOffset = 0) : latestTimestampOf parts = 0 := by
  have aux : ∀ (l : List PartScan) (acc : Int), (∀ p ∈ l, p.endOffset = 0) →
      l.foldl (fun acc p => if 0 < p.endOffset then max acc p.lastTs else acc) acc = acc := by
    intro l
    induction l with
    | nil => intro acc _; rfl
    | cons p ps ih =>
      intro acc hz
      rw [List.foldl_cons,
        if_neg (by rw [hz p (List.mem_cons_self _ _)]; exact lt_irrefl 0)]
      exact ih acc (fun q hq => hz q (List.mem_cons_of_mem _ hq))
  exact aux parts 0 h

/-- C4: a topic all of whose partitions have end-offset 0 is never put in
the unused-topics list, whatever the current time and threshold: the scan
outcome is that of the topic list without it.  Moreover any topic that is
classified unused had a positive latest message timestamp. -/
theorem find_unused_skips_empty_topics (xs ys : List (String × Except String (List PartScan)))
    (t : String) (parts : List PartScan) (nowMs unusedDays : Int)
    (h : ∀ p ∈ parts, p.endOffset = 0) :
    findUnused (xs ++ (t, Except.ok parts) :: ys) nowMs unusedDays =
      findUnused (xs ++ ys) nowMs unusedDays ∧
    ∀ (t2 : String) (parts2 : List PartScan),
      (findUnused [(t2, Except.ok parts2)] nowMs unusedDays).results ≠ [] →
        0 < latestTimestampOf parts2 := by
  constructor
  · have hz : unusedResult nowMs (nowMs - unusedDays * msPerDay) t parts = [] := by
      unfold unusedResult
      by_cases hp : parts = []
      · rw [if_pos hp]
      · rw [if_neg hp,
          if_neg (fun hc => absurd hc.1 (by rw [latestTimestampOf_zero parts h]; exact lt_irrefl 0))]
    simp [findUnused, runScan_eq, hz]
  · intro t2 parts2 hres
    by_contra hle
    push_neg at hle
    refine hres ?_
    have hzr : unusedResult nowMs (nowMs - unusedDays * msPerDay) t2 parts2 = [] := by
      unfold unusedResult
      by_cases hp : parts2 = []
      · rw [if_pos hp]
      · rw [if_neg hp, if_neg (fun hc => absurd hc.1 (not_lt.mpr hle))]
    simp [findUnused, runScan_eq, hzr]

/-- C4 witness: a topic with one partition at end-offset 0 drops out of
the scan entirely; the spec example topic orders with partitions at
end-offsets 0 and 50 and a last message 120 days old under a 90-day
threshold is classified "120.0 days old". -/
theorem find_unused_skips_empty_topics_witness :
    findUnused [("empty", Except.ok [⟨0, 0, 999⟩])] 99999999999 1 =
      findUnused [] 99999999999 1 ∧
    (findUnused [("orders", Except.ok [⟨0, 0, 0⟩, ⟨1, 50, 43200000⟩])]
        10411200000 90).results = [("orders", "120.0 days old")] := by
  constructor
  · exact (find_unused_skips_empty_topics [] [] "empty" [⟨0, 0, 999⟩] 99999999999 1
      (by decide)).1
  · have h1 : (findUnused [("orders", Except.ok [⟨0, 0, 0⟩, ⟨1, 50, 43200000⟩])]
        10411200000 90).results =
        [("orders", fmt1 (daysOld 10411200000 (latestTimestampOf [⟨0, 0, 0⟩, ⟨1, 50, 43200000⟩])) ++
          " days old")] := by
      simp [findUnused, runScan_eq, unusedResult]
      decide
    rw [h1, show latestTimestampOf [⟨0, 0, 0⟩, ⟨1, 50, 43200000⟩] = 43200000 from by decide,
      fmt1_daysOld]
    decide

/-- C5: for any prompt response, either delete command issues its
destructive client call iff the lower-cased response is exactly y; in
particular the empty response (which takes the negative default) cancels,
an upper-case Y proceeds, and a longer affirmative like yes cancels. -/
theorem delete_guard_correct (group_name topic_name input : String) :
    (delete_consumer_group group_name input =
      if lowerStr input = "y" then [ClientCall.deleteGroups [group_name]] else []) ∧
    (delete_topic topic_name input =
      if lowerStr input = "y" then [ClientCall.deleteTopics [topic_name]] else []) ∧
    delete_consumer_group group_name "" = [] ∧
    delete_topic topic_name "" = [] ∧
    delete_consumer_group group_name "Y" = [ClientCall.deleteGroups [group_name]] ∧
    delete_topic topic_name "Y" = [ClientCall.deleteTopics [topic_name]] ∧
    delete_consumer_group group_name "yes" = [] ∧
    delete_consumer_group group_name "n" = [] := by
  refine ⟨?_, ?_, ?_, ?_, ?_, ?_, ?_, ?_⟩ <;>
    by_cases hin : input = "" <;>
      simp [delete_consumer_group, delete_topic, promptAnswer, hin, lowerStr, ite_not]

/-- The error branch of the scan loop only renders a warning: the results
with the failed item present are the results with it removed, and the
warning is in the output. -/
theorem runScan_error_skip {ι δ ρ : Type} (w : ι → String → String) (r : ι → δ → List ρ)
    (xs ys : List (ι × Except String δ)) (i : ι) (e : String) :
    (runScan w r (xs ++ (i, Except.error e) :: ys)).results =
      (runScan w r (xs ++ ys)).results ∧
    w i e ∈ (runScan w r (xs ++ (i, Except.error e) :: ys)).warnings := by
  constructor <;> simp [runScan_eq]

/-- C6: in each of the three scans, an item that raises mid-query is
rendered as a warning and skipped: every other item is still processed and
contributes exactly what it contributes without the failing item. -/
theorem scan_continues_after_error
    (xs ys : List (String × Except String GroupFetch)) (g e : String)
    (xs2 ys2 : List (String × Except String (List (TopicPartition × OffsetMeta))))
    (g2 e2 : String)
    (xu yu : List (String × Except String (List PartScan))) (tu eu : String)
    (nowMs staleDays unusedDays : Int) :
    (checkLag (xs ++ (g, Except.error e) :: ys)).results =
      (checkLag (xs ++ ys)).results ∧
    lagWarning g e ∈ (checkLag (xs ++ (g, Except.error e) :: ys)).warnings ∧
    (findStale (xs2 ++ (g2, Except.error e2) :: ys2) nowMs staleDays).results =
      (findStale (xs2 ++ ys2) nowMs staleDays).results ∧
    staleWarning g2 e2 ∈
      (findStale (xs2 ++ (g2, Except.error e2) :: ys2) nowMs staleDays).warnings ∧
    (findUnused (xu ++ (tu, Except.error eu) :: yu) nowMs unusedDays).results =
      (findUnused (xu ++ yu) nowMs unusedDays).results ∧
    unusedWarning tu eu ∈
      (findUnused (xu ++ (tu, Except.error eu) :: yu) nowMs unusedDays).warnings :=
  ⟨(runScan_error_skip lagWarning lagResult xs ys g e).1,
   (runScan_error_skip lagWarning lagResult xs ys g e).2,
   (runScan_error_skip staleWarning _ xs2 ys2 g2 e2).1,
   (runScan_error_skip staleWarning _ xs2 ys2 g2 e2).2,
   (runScan_error_skip unusedWarning _ xu yu tu eu).1,
   (runScan_error_skip unusedWarning _ xu yu tu eu).2⟩

/-- C7 counterexample: the claim that both connections are released at the
end of every command fails, because the cli commands never call close: the
health-check command run from a fresh instance creates the admin client
and its trace holds no release event, and the find unused-topics command
run releases neither client. -/
theorem cli_commands_never_release :
    LensEv.createAdmin ∈ (cliHealthCheck initLens).trace ∧
    LensEv.closeAdmin ∉ (cliHealthCheck initLens).trace ∧
    (cliHealthCheck initLens).admin_client ≠ none ∧
    LensEv.closeAdmin ∉ (cliFindUnusedTopics initLens).trace ∧
    LensEv.closeConsumer ∉ (cliFindUnusedTopics initLens).trace := by decide

/-- C7 as amended: the admin client and the consumer are each constructed
at most once per invocation (a second acquisition returns the stored
instance and leaves the state untouched), and close releases whichever
clients exist; but the cli commands perform no release: a command run adds
no close event to the trace. -/
theorem client_lifecycle_amended (s : LensState) :
    get_admin_client (get_admin_client s).2 =
      ((get_admin_client s).1, (get_admin_client s).2) ∧
    get_consumer (get_consumer s).2 = ((get_consumer s).1, (get_consumer s).2) ∧
    (close s).trace = s.trace ++
      (match s.admin_client with | some _ => [LensEv.closeAdmin] | none => []) ++
      (match s.consumer with | some _ => [LensEv.closeConsumer] | none => []) ∧
    (cliHealthCheck s).trace.count LensEv.closeAdmin =
      s.trace.count LensEv.closeAdmin ∧
    (cliFindUnusedTopics s).trace.count LensEv.closeAdmin =
      s.trace.count LensEv.closeAdmin ∧
    (cliFindUnusedTopics s).trace.count LensEv.closeConsumer =
      s.trace.count LensEv.closeConsumer := by
  refine ⟨?_, ?_, ?_, ?_, ?_, ?_⟩
  · cases h : s.admin_client <;> simp [get_admin_client, h]
  · cases h : s.consumer <;> simp [get_consumer, h]
  · cases ha : s.admin_client <;> cases hc : s.consumer <;>
      simp [close, ha, hc]
  · cases h : s.admin_client <;>
      simp [cliHealthCheck, get_admin_client, h, List.count_append]
  · cases ha : s.admin_client <;> cases hc : s.consumer <;>
      simp [cliFindUnusedTopics, get_admin_client, get_consumer, ha, hc,
        List.count_append]
  · cases ha : s.admin_client <;> cases hc : s.consumer <;>
      simp [cliFindUnusedTopics, get_admin_client, get_consumer, ha, hc,
        List.count_append]

/-- Record consumption splits over concatenated event lists. -/
theorem consumedCount_append (a b : List ConsumerEv) :
    consumedCount (a ++ b) = consumedCount a + consumedCount b := by
  simp [consumedCount, List.filterMap_append]

/-- The inspection consumes one record for each partition holding
messages. -/
theorem consumedCount_inspect (parts : List PartScan) :
    consumedCount (inspectTopicEvents parts) =
      (parts.filter (fun p => 0 < p.endOffset)).length := by
  induction parts with
  | nil => rfl
  | cons p ps ih =>
    rw [inspectTopicEvents, List.flatMap_cons, consumedCount_append,
      ← inspectTopicEvents, ih]
    by_cases hp : 0 < p.endOffset <;>
      simp [inspectPartitionEvents, hp, List.filter_cons, consumedCount] <;> omega

/-- C8: the last-message inspection is read-only: the consumer is built
with automatic committing disabled and its event trace holds no commit;
each partition holding messages gets a seek to end offset − 1 and a
one-record consumption, the total consumption is one record per such
partition, and every seek targets some partition's end offset − 1. -/
theorem inspection_read_only (parts : List PartScan) :
    lensConsumerConfig.enable_auto_commit = false ∧
    ConsumerEv.commitOffsets ∉ inspectTopicEvents parts ∧
    (∀ p ∈ parts, 0 < p.endOffset →
      ConsumerEv.seekAt p.pid (p.endOffset - 1) ∈ inspectTopicEvents parts ∧
      ConsumerEv.consumeRecords p.pid 1 ∈ inspectTopicEvents parts) ∧
    consumedCount (inspectTopicEvents parts) =
      (parts.filter (fun p => 0 < p.endOffset)).length ∧
    (∀ (q : Nat) (off : Int), ConsumerEv.seekAt q off ∈ inspectTopicEvents parts →
      ∃ p ∈ parts, p.pid = q ∧ 0 < p.endOffset ∧ off = p.endOffset - 1) := by
  refine ⟨rfl, ?_, ?_, consumedCount_inspect parts, ?_⟩
  · intro hmem
    rw [inspectTopicEvents, List.mem_flatMap] at hmem
    obtain ⟨p, -, hm⟩ := hmem
    unfold inspectPartitionEvents at hm
    split at hm <;> simp at hm
  · intro p hp hpe
    constructor <;>
      exact List.mem_flatMap.mpr ⟨p, hp, by simp [inspectPartitionEvents, hpe]⟩
  · intro q off hmem
    rw [inspectTopicEvents, List.mem_flatMap] at hmem
    obtain ⟨p, hp, hm⟩ := hmem
    unfold inspectPartitionEvents at hm
    split at hm
    · simp only [List.mem_cons, List.mem_singleton] at hm
      rcases hm with hm | hm | hm
      · cases hm
      · cases hm
        exact ⟨p, hp, rfl, by assumption, rfl⟩
      · rcases hm with hm | hm
        · cases hm
        · cases hm
    · simp at hm

/-- C8 witness: a topic with one non-empty partition (end offset 5) and
one empty partition yields no commit event, seeks partition 0 to offset 4,
consumes one record there, and consumes one record in total. -/
theorem inspection_read_only_witness :
    ConsumerEv.commitOffsets ∉ inspectTopicEvents [⟨0, 5, 100⟩, ⟨1, 0, 0⟩] ∧
    ConsumerEv.seekAt 0 4 ∈ inspectTopicEvents [⟨0, 5, 100⟩, ⟨1, 0, 0⟩] ∧
    ConsumerEv.consumeRecords 0 1 ∈ inspectTopicEvents [⟨0, 5, 100⟩, ⟨1, 0, 0⟩] ∧
    consumedCount (inspectTopicEvents [⟨0, 5, 100⟩, ⟨1, 0, 0⟩]) = 1 := by
  have h := inspection_read_only [⟨0, 5, 100⟩, ⟨1, 0, 0⟩]
  have hp := h.2.2.1 ⟨0, 5, 100⟩ (by decide) (by decide)
  exact ⟨h.2.1, by simpa using hp.1, by simpa using hp.2, by decide⟩

end KafkaLens
